import Mathlib

/-!
Verification of the noise-parameter sweep core of the HQEC_Tesseract repository
(`Examples/Tensor_Network_Decoding/Multi_Logical_Decoding/max_rate_multi_logical_HaPPY_TN.py`
and `Examples/reproducing_figs.py`).

The numeric model uses exact rationals (ℚ) in place of IEEE doubles; the grid
arithmetic in the scripts (`np.arange`, `np.linspace`) is embedded with numpy's
documented length semantics.  The decoder backends
(`tn_quantum_error_correction_decoder_multiprocess`,
`calculate_recovery_rates_for_p_range`) live in the external `LEGO_HQEC`
package, absent from the repository sources; where a claim depends on their
behaviour they are treated as opaque parameters constrained by the spec's
statistical contract, or modelled from the spec (marked as such).
-/

namespace HQEC

/-- Model of `np.arange(start, stop, step)` for `step ≠ 0`: the values
`start + i * step` for `0 ≤ i < ⌈(stop - start) / step⌉` (numpy's documented
length).  For `step = 0` numpy raises; this model is only used with nonzero
step. -/
def arange (start stop step : ℚ) : List ℚ :=
  (List.range (⌈(stop - start) / step⌉).toNat).map (fun i : ℕ => start + (i : ℚ) * step)

/-- Line 18 of `max_rate_multi_logical_HaPPY_TN.py`:
`p_values = np.arange(p_start, p_end + p_step, p_step)`. -/
def pValues (p_start p_end p_step : ℚ) : List ℚ :=
  arange p_start (p_end + p_step) p_step

lemma arange_eq_of_count (start stop step : ℚ) (n : ℕ)
    (h : (⌈(stop - start) / step⌉).toNat = n) :
    arange start stop step = (List.range n).map (fun i : ℕ => start + (i : ℚ) * step) := by
  rw [arange, h]

lemma ceil_toNat_eq (q : ℚ) (n : ℕ) (h1 : (n : ℚ) - 1 < q) (h2 : q ≤ (n : ℚ)) :
    (⌈q⌉).toNat = n := by
  have h : ⌈q⌉ = (n : ℤ) := Int.ceil_eq_iff.mpr ⟨by push_cast; exact h1, by push_cast; exact h2⟩
  rw [h]; simp

lemma ceil_toNat_eq_zero (q : ℚ) (h : q ≤ 0) : (⌈q⌉).toNat = 0 := by
  have : ⌈q⌉ ≤ 0 := Int.ceil_le.mpr (by simpa using h)
  omega

lemma pValues_concrete (a b s : ℚ) (n : ℕ)
    (h : (⌈(b + s - a) / s⌉).toNat = n) :
    pValues a b s = (List.range n).map (fun i : ℕ => a + (i : ℚ) * s) := by
  rw [pValues, arange, h]

/-- C1: for `p_start ≤ p_end`, `p_step > 0` with `p_step` evenly dividing the
range (`p_end - p_start = k * p_step`), the grid produced by
`np.arange(p_start, p_end + p_step, p_step)` is the finite list
`p_start, p_start + p_step, …, p_end`: it is non-decreasing, starts at
`p_start`, and its last element is exactly `p_end`. -/
theorem pValues_exact_division (a b s : ℚ) (k : ℕ)
    (hab : a ≤ b) (hs : 0 < s) (hdiv : b - a = (k : ℚ) * s) :
    pValues a b s = (List.range (k + 1)).map (fun i : ℕ => a + (i : ℚ) * s) ∧
    (pValues a b s).head? = some a ∧
    (pValues a b s).getLast? = some b ∧
    List.Sorted (· ≤ ·) (pValues a b s) := by
  have hs0 : s ≠ 0 := ne_of_gt hs
  have hcount : (⌈(b + s - a) / s⌉).toNat = k + 1 := by
    have h1 : (b + s - a) / s = (k : ℚ) + 1 := by
      have : b + s - a = ((k : ℚ) + 1) * s := by rw [add_mul, one_mul, ← hdiv]; ring
      rw [this, mul_div_assoc, div_self hs0, mul_one]
    rw [h1]
    have : ((k : ℚ) + 1) = ((k + 1 : ℕ) : ℚ) := by push_cast; ring
    rw [this, Int.ceil_natCast]
    simp
  have heq : pValues a b s = (List.range (k + 1)).map (fun i : ℕ => a + (i : ℚ) * s) :=
    arange_eq_of_count a (b + s) s (k + 1) hcount
  refine ⟨heq, ?_, ?_, ?_⟩
  · rw [heq, List.range_succ_eq_map]
    simp
  · rw [heq, List.range_succ, List.map_append]
    simp only [List.map_cons, List.map_nil, List.getLast?_concat]
    congr 1
    rw [← hdiv]; ring
  · rw [heq]
    apply List.Pairwise.map
    · intro i j (hij : i < j)
      have : (i : ℚ) ≤ (j : ℚ) := by exact_mod_cast le_of_lt hij
      nlinarith
    · exact List.pairwise_lt_range (k + 1)

/-- Witness for C1 at `p_start = 0`, `p_end = 3/10`, `p_step = 1/20` (`k = 6`). -/
theorem pValues_exact_division_witness :
    ((0 : ℚ) ≤ 3/10 ∧ (0 : ℚ) < 1/20 ∧ (3/10 : ℚ) - 0 = (6 : ℕ) * (1/20)) ∧
    (pValues 0 (3/10) (1/20) = (List.range 7).map (fun i : ℕ => 0 + (i : ℚ) * (1/20)) ∧
     (pValues 0 (3/10) (1/20)).head? = some 0 ∧
     (pValues 0 (3/10) (1/20)).getLast? = some (3/10) ∧
     List.Sorted (· ≤ ·) (pValues 0 (3/10) (1/20))) :=
  ⟨⟨by norm_num, by norm_num, by norm_num⟩,
   pValues_exact_division 0 (3/10) (1/20) 6 (by norm_num) (by norm_num) (by norm_num)⟩

/-- C2 (amended): `scan_success_rates` performs no range validation; with
`p_end < p_start` and `p_step > 0` it silently yields a grid: empty when
`p_end + p_step ≤ p_start`, otherwise nonempty starting at `p_start` (a point
outside the requested range).  No `InvalidRangeKind` error path exists. -/
theorem pValues_no_validation (a b s : ℚ) (hba : b < a) (hs : 0 < s) :
    (b + s ≤ a → pValues a b s = []) ∧
    (a < b + s → (pValues a b s).head? = some a) := by
  constructor
  · intro hle
    have h0 : (⌈(b + s - a) / s⌉).toNat = 0 :=
      ceil_toNat_eq_zero _ (div_nonpos_of_nonpos_of_nonneg (by linarith) (le_of_lt hs))
    rw [pValues_concrete a b s 0 h0]
    simp
  · intro hlt
    have hpos : 0 < (b + s - a) / s := div_pos (by linarith) hs
    have hc : 0 < ⌈(b + s - a) / s⌉ := Int.ceil_pos.mpr hpos
    have hnpos : 0 < (⌈(b + s - a) / s⌉).toNat := by omega
    obtain ⟨m, hm⟩ := Nat.exists_eq_succ_of_ne_zero (Nat.pos_iff_ne_zero.mp hnpos)
    rw [pValues_concrete a b s ((⌈(b + s - a) / s⌉).toNat) rfl, hm, List.range_succ_eq_map]
    simp

/-- Witness for the amended C2 at `p_start = 3/10`, `p_end = 0`, `p_step = 1/2`. -/
theorem pValues_no_validation_witness :
    ((0 : ℚ) < 3/10 ∧ (0 : ℚ) < 1/2) ∧
    (((0 : ℚ) + 1/2 ≤ 3/10 → pValues (3/10) 0 (1/2) = []) ∧
     ((3 : ℚ)/10 < 0 + 1/2 → (pValues (3/10) 0 (1/2)).head? = some (3/10))) :=
  ⟨⟨by norm_num, by norm_num⟩,
   pValues_no_validation (3/10) 0 (1/2) (by norm_num) (by norm_num)⟩

/-- C2 counterexample: at `p_start = 3/10 > p_end = 0` with `p_step = 1/2 > 0`
the generation does not fail: it silently produces the grid `[3/10]` (whose
only point even lies outside `[p_start, p_end]`), so no `InvalidRangeKind`
failure occurs. -/
theorem pValues_invalid_range_counterexample :
    (0 : ℚ) < 3/10 ∧ (0 : ℚ) < 1/2 ∧ pValues (3/10) 0 (1/2) = [3/10] := by
  refine ⟨by norm_num, by norm_num, ?_⟩
  rw [pValues_concrete (3/10) 0 (1/2) 1 (ceil_toNat_eq _ 1 (by norm_num) (by norm_num))]
  norm_num [List.range_succ]

/-- C10: there are valid inputs (`p_start ≤ p_end`, `p_step > 0`, step not
dividing the range) where the grid's final value strictly exceeds `p_end`:
`np.arange(0, 3/10 + 1/5, 1/5) = [0, 1/5, 2/5]` sweeps the noise point
`2/5 > 3/10` outside the requested range. -/
theorem pValues_overshoot :
    ∃ a b s x : ℚ, a ≤ b ∧ 0 < s ∧ (∀ k : ℕ, b - a ≠ (k : ℚ) * s) ∧
      (pValues a b s).getLast? = some x ∧ b < x := by
  refine ⟨0, 3/10, 1/5, 2/5, by norm_num, by norm_num, ?_, ?_, by norm_num⟩
  · intro k h
    have h2 : (k : ℚ) * 2 = 3 := by
      field_simp at h
      linarith
    have h3 : ((k * 2 : ℕ) : ℚ) = ((3 : ℕ) : ℚ) := by push_cast; linarith
    have h4 : k * 2 = 3 := Nat.cast_injective h3
    omega
  · rw [pValues_concrete 0 (3/10) (1/5) 3 (ceil_toNat_eq _ 3 (by norm_num) (by norm_num))]
    rw [List.range_succ, List.map_append]
    simp only [List.map_cons, List.map_nil, List.getLast?_concat]
    norm_num

/-- Line 17 of `max_rate_multi_logical_HaPPY_TN.py` (and lines 69–70 of
`reproducing_figs.py`): `ry = 1 - rx - rz`, with no validation of `rx`, `rz`. -/
def ryOf (rx rz : ℚ) : ℚ := 1 - rx - rz

/-- C5 (amended): the depolarizing triple `(rx, ry, rz)` with `ry = 1 - rx - rz`
always sums to exactly 1, but it is componentwise non-negative only under the
unvalidated side conditions: `0 ≤ ry` holds iff `rx + rz ≤ 1`. -/
theorem ryOf_sum_one_and_sign (rx rz : ℚ) :
    rx + ryOf rx rz + rz = 1 ∧ (0 ≤ ryOf rx rz ↔ rx + rz ≤ 1) := by
  constructor
  · rw [ryOf]; ring
  · rw [ryOf]
    constructor <;> intro h <;> linarith

/-- C5 counterexample: the entry points accept `rx = rz = 4/5` (no validation),
and the resulting `ry = 1 - rx - rz` is negative, so the triple passed to the
decoder is not componentwise non-negative. -/
theorem ryOf_negative_counterexample :
    ryOf (4/5) (4/5) = -(3/5) ∧ ryOf (4/5) (4/5) < 0 := by
  constructor <;> norm_num [ryOf]

/-- Lines 27–40 of `max_rate_multi_logical_HaPPY_TN.py`: the noise-point loop
for one radius pairs each grid point with the rate returned by the (opaque,
external) tensor-network decoder. -/
def sweepPairs (decoder : ℤ → ℚ → ℚ) (r : ℤ) (a b s : ℚ) : List (ℚ × ℚ) :=
  (pValues a b s).map (fun p => (p, decoder r p))

lemma pValues_R0_grid :
    pValues 0 (3/10) (1/20) = [0, 1/20, 1/10, 3/20, 1/5, 1/4, 3/10] := by
  rw [pValues_concrete 0 (3/10) (1/20) 7 (ceil_toNat_eq _ 7 (by norm_num) (by norm_num))]
  norm_num [List.range_succ]

/-- C3: under the spec's statistical contract for the external decoder (rates
in `[0,1]`, rate `1` at `p = 0`), the `R = 0` sweep with `p_start = 0`,
`p_end = 3/10`, `p_step = 1/20` emits exactly 7 `(p, rate)` pairs with
`p = 0, 1/20, …, 3/10` in order, all rates in `[0,1]`, and rate `1` at
`p = 0`. -/
theorem scan_R0_end_to_end (decoder : ℤ → ℚ → ℚ)
    (hrange : ∀ r p, 0 ≤ decoder r p ∧ decoder r p ≤ 1)
    (hzero : ∀ r, decoder r 0 = 1) :
    (sweepPairs decoder 0 0 (3/10) (1/20)).length = 7 ∧
    (sweepPairs decoder 0 0 (3/10) (1/20)).map Prod.fst
      = [0, 1/20, 1/10, 3/20, 1/5, 1/4, 3/10] ∧
    (∀ pr ∈ sweepPairs decoder 0 0 (3/10) (1/20), 0 ≤ pr.2 ∧ pr.2 ≤ 1) ∧
    (sweepPairs decoder 0 0 (3/10) (1/20)).head? = some (0, 1) := by
  refine ⟨?_, ?_, ?_, ?_⟩
  · rw [sweepPairs, List.length_map, pValues_R0_grid]
    rfl
  · rw [sweepPairs, List.map_map]
    have : (Prod.fst ∘ fun p => (p, decoder 0 p)) = id := rfl
    rw [this, List.map_id]
    exact pValues_R0_grid
  · intro pr hpr
    rw [sweepPairs] at hpr
    obtain ⟨p, _, rfl⟩ := List.mem_map.mp hpr
    exact hrange 0 p
  · rw [sweepPairs, pValues_R0_grid]
    simp [hzero 0]

/-- Witness for C3 with the constant decoder returning rate 1. -/
theorem scan_R0_end_to_end_witness :
    (sweepPairs (fun _ _ => (1 : ℚ)) 0 0 (3/10) (1/20)).length = 7 ∧
    (sweepPairs (fun _ _ => (1 : ℚ)) 0 0 (3/10) (1/20)).map Prod.fst
      = [0, 1/20, 1/10, 3/20, 1/5, 1/4, 3/10] ∧
    (∀ pr ∈ sweepPairs (fun _ _ => (1 : ℚ)) 0 0 (3/10) (1/20), 0 ≤ pr.2 ∧ pr.2 ≤ 1) ∧
    (sweepPairs (fun _ _ => (1 : ℚ)) 0 0 (3/10) (1/20)).head? = some (0, 1) :=
  scan_R0_end_to_end (fun _ _ => 1) (fun _ _ => ⟨by norm_num, by norm_num⟩) (fun _ => rfl)

/-- Observable operations performed by the body of `scan_success_rates`
(lines 20–40): per-radius code construction (`setup_max_rate_happy`), operator
pushing (`batch_push`), stabilizer and logical extraction, and one decoder
invocation per noise point. -/
inductive Event : Type
  | setup (r : ℤ)
  | push (r : ℤ)
  | extractStabs (r : ℤ)
  | extractLogs (r : ℤ)
  | decode (r : ℤ) (p : ℚ)
  deriving DecidableEq

/-- Lines 21–40: for one radius, setup, push and the two extractions happen
once, in that order, before the noise-point loop, which then invokes the
decoder once per grid point. -/
def radiusTrace (r : ℤ) (ps : List ℚ) : List Event :=
  [Event.setup r, Event.push r, Event.extractStabs r, Event.extractLogs r]
    ++ ps.map (fun p => Event.decode r p)

/-- Lines 18–40: the grid is computed once (line 18), then the radii are
processed sequentially. -/
def scanTrace (radii : List ℤ) (ps : List ℚ) : List Event :=
  match radii with
  | [] => []
  | r :: rs => radiusTrace r ps ++ scanTrace rs ps

/-- Recognizes a decoder invocation for radius `r`. -/
def isDecodeOf (r : ℤ) : Event → Bool
  | Event.decode r' _ => r' == r
  | _ => false

lemma count_radiusTrace_setup (r r' : ℤ) (ps : List ℚ) :
    (radiusTrace r' ps).count (Event.setup r) = if r' = r then 1 else 0 := by
  have h0 : (ps.map (fun p => Event.decode r' p)).count (Event.setup r) = 0 := by
    rw [List.count_eq_zero]
    intro h
    obtain ⟨p, _, hp⟩ := List.mem_map.mp h
    exact Event.noConfusion hp
  by_cases hr : r' = r
  · subst hr; simp [radiusTrace, List.count_append, List.count_cons, h0]
  · simp [radiusTrace, List.count_append, List.count_cons, h0, hr, Ne.symm hr]

lemma count_radiusTrace_push (r r' : ℤ) (ps : List ℚ) :
    (radiusTrace r' ps).count (Event.push r) = if r' = r then 1 else 0 := by
  have h0 : (ps.map (fun p => Event.decode r' p)).count (Event.push r) = 0 := by
    rw [List.count_eq_zero]
    intro h
    obtain ⟨p, _, hp⟩ := List.mem_map.mp h
    exact Event.noConfusion hp
  by_cases hr : r' = r
  · subst hr; simp [radiusTrace, List.count_append, List.count_cons, h0]
  · simp [radiusTrace, List.count_append, List.count_cons, h0, hr, Ne.symm hr]

lemma count_radiusTrace_extractStabs (r r' : ℤ) (ps : List ℚ) :
    (radiusTrace r' ps).count (Event.extractStabs r) = if r' = r then 1 else 0 := by
  have h0 : (ps.map (fun p => Event.decode r' p)).count (Event.extractStabs r) = 0 := by
    rw [List.count_eq_zero]
    intro h
    obtain ⟨p, _, hp⟩ := List.mem_map.mp h
    exact Event.noConfusion hp
  by_cases hr : r' = r
  · subst hr; simp [radiusTrace, List.count_append, List.count_cons, h0]
  · simp [radiusTrace, List.count_append, List.count_cons, h0, hr, Ne.symm hr]

lemma count_radiusTrace_extractLogs (r r' : ℤ) (ps : List ℚ) :
    (radiusTrace r' ps).count (Event.extractLogs r) = if r' = r then 1 else 0 := by
  have h0 : (ps.map (fun p => Event.decode r' p)).count (Event.extractLogs r) = 0 := by
    rw [List.count_eq_zero]
    intro h
    obtain ⟨p, _, hp⟩ := List.mem_map.mp h
    exact Event.noConfusion hp
  by_cases hr : r' = r
  · subst hr; simp [radiusTrace, List.count_append, List.count_cons, h0]
  · simp [radiusTrace, List.count_append, List.count_cons, h0, hr, Ne.symm hr]

lemma countP_radiusTrace_decode (r r' : ℤ) (ps : List ℚ) :
    (radiusTrace r' ps).countP (isDecodeOf r) = if r' = r then ps.length else 0 := by
  rw [radiusTrace, List.countP_append]
  have h4 : ([Event.setup r', Event.push r', Event.extractStabs r',
      Event.extractLogs r'] : List Event).countP (isDecodeOf r) = 0 := by
    simp [List.countP_cons, isDecodeOf]
  rw [h4, List.countP_map]
  by_cases hr : r' = r
  · subst hr
    have hfn : ((isDecodeOf r') ∘ fun p => Event.decode r' p) = fun _ => true := by
      funext p; simp [isDecodeOf]
    rw [hfn]
    simp
  · have hfn : ((isDecodeOf r) ∘ fun p => Event.decode r' p) = fun _ => false := by
      funext p; simp [isDecodeOf, hr]
    rw [hfn]
    simp [hr]

lemma count_scanTrace_setup (radii : List ℤ) (ps : List ℚ) (r : ℤ) :
    (scanTrace radii ps).count (Event.setup r) = radii.count r := by
  induction radii with
  | nil => simp [scanTrace]
  | cons r' rs ih =>
    rw [scanTrace, List.count_append, ih, count_radiusTrace_setup, List.count_cons]
    by_cases hr : r' = r
    · subst hr
      simp
      try ring
    · simp [hr]
      try ring

lemma count_scanTrace_push (radii : List ℤ) (ps : List ℚ) (r : ℤ) :
    (scanTrace radii ps).count (Event.push r) = radii.count r := by
  induction radii with
  | nil => simp [scanTrace]
  | cons r' rs ih =>
    rw [scanTrace, List.count_append, ih, count_radiusTrace_push, List.count_cons]
    by_cases hr : r' = r
    · subst hr
      simp
      try ring
    · simp [hr]
      try ring

lemma count_scanTrace_extractStabs (radii : List ℤ) (ps : List ℚ) (r : ℤ) :
    (scanTrace radii ps).count (Event.extractStabs r) = radii.count r := by
  induction radii with
  | nil => simp [scanTrace]
  | cons r' rs ih =>
    rw [scanTrace, List.count_append, ih, count_radiusTrace_extractStabs, List.count_cons]
    by_cases hr : r' = r
    · subst hr
      simp
      try ring
    · simp [hr]
      try ring

lemma count_scanTrace_extractLogs (radii : List ℤ) (ps : List ℚ) (r : ℤ) :
    (scanTrace radii ps).count (Event.extractLogs r) = radii.count r := by
  induction radii with
  | nil => simp [scanTrace]
  | cons r' rs ih =>
    rw [scanTrace, List.count_append, ih, count_radiusTrace_extractLogs, List.count_cons]
    by_cases hr : r' = r
    · subst hr
      simp
      try ring
    · simp [hr]
      try ring

lemma countP_scanTrace_decode (radii : List ℤ) (ps : List ℚ) (r : ℤ) :
    (scanTrace radii ps).countP (isDecodeOf r) = radii.count r * ps.length := by
  induction radii with
  | nil => simp [scanTrace]
  | cons r' rs ih =>
    rw [scanTrace, List.countP_append, ih, countP_radiusTrace_decode, List.count_cons]
    by_cases hr : r' = r
    · subst hr
      simp
      try ring
    · simp [hr]
      try ring

/-- Lines 75–91 of `reproducing_figs.py`: the radius loop of
`generate_data_fig6b` constructs the code (`setup_zero_rate_happy(R)`) once
per radius and then invokes the decoder once per grid point directly on the
tensor list — `batch_push` and the stabilizer/logical extractions are never
called in this sweep. -/
def fig6bRadiusTrace (r : ℤ) (ps : List ℚ) : List Event :=
  Event.setup r :: ps.map (fun p => Event.decode r p)

/-- Lines 75–95: the fig6b radii are processed sequentially. -/
def fig6bTrace (radii : List ℤ) (ps : List ℚ) : List Event :=
  match radii with
  | [] => []
  | r :: rs => fig6bRadiusTrace r ps ++ fig6bTrace rs ps

lemma count_fig6bRadiusTrace_setup (r r' : ℤ) (ps : List ℚ) :
    (fig6bRadiusTrace r' ps).count (Event.setup r) = if r' = r then 1 else 0 := by
  have h0 : (ps.map (fun p => Event.decode r' p)).count (Event.setup r) = 0 := by
    rw [List.count_eq_zero]
    intro h
    obtain ⟨p, _, hp⟩ := List.mem_map.mp h
    exact Event.noConfusion hp
  by_cases hr : r' = r
  · subst hr; simp [fig6bRadiusTrace, List.count_cons, h0]
  · simp [fig6bRadiusTrace, List.count_cons, h0, hr, Ne.symm hr]

lemma count_fig6bRadiusTrace_push (r r' : ℤ) (ps : List ℚ) :
    (fig6bRadiusTrace r' ps).count (Event.push r) = 0 := by
  have h0 : (ps.map (fun p => Event.decode r' p)).count (Event.push r) = 0 := by
    rw [List.count_eq_zero]
    intro h
    obtain ⟨p, _, hp⟩ := List.mem_map.mp h
    exact Event.noConfusion hp
  simp [fig6bRadiusTrace, List.count_cons, h0]

lemma count_fig6bRadiusTrace_extractStabs (r r' : ℤ) (ps : List ℚ) :
    (fig6bRadiusTrace r' ps).count (Event.extractStabs r) = 0 := by
  have h0 : (ps.map (fun p => Event.decode r' p)).count (Event.extractStabs r) = 0 := by
    rw [List.count_eq_zero]
    intro h
    obtain ⟨p, _, hp⟩ := List.mem_map.mp h
    exact Event.noConfusion hp
  simp [fig6bRadiusTrace, List.count_cons, h0]

lemma count_fig6bRadiusTrace_extractLogs (r r' : ℤ) (ps : List ℚ) :
    (fig6bRadiusTrace r' ps).count (Event.extractLogs r) = 0 := by
  have h0 : (ps.map (fun p => Event.decode r' p)).count (Event.extractLogs r) = 0 := by
    rw [List.count_eq_zero]
    intro h
    obtain ⟨p, _, hp⟩ := List.mem_map.mp h
    exact Event.noConfusion hp
  simp [fig6bRadiusTrace, List.count_cons, h0]

lemma countP_fig6bRadiusTrace_decode (r r' : ℤ) (ps : List ℚ) :
    (fig6bRadiusTrace r' ps).countP (isDecodeOf r) = if r' = r then ps.length else 0 := by
  have happ : fig6bRadiusTrace r' ps
      = [Event.setup r'] ++ ps.map (fun p => Event.decode r' p) := rfl
  rw [happ, List.countP_append]
  have h1 : ([Event.setup r'] : List Event).countP (isDecodeOf r) = 0 := by
    simp [List.countP_cons, isDecodeOf]
  rw [h1, List.countP_map]
  by_cases hr : r' = r
  · subst hr
    have hfn : ((isDecodeOf r') ∘ fun p => Event.decode r' p) = fun _ => true := by
      funext p; simp [isDecodeOf]
    rw [hfn]
    simp
  · have hfn : ((isDecodeOf r) ∘ fun p => Event.decode r' p) = fun _ => false := by
      funext p; simp [isDecodeOf, hr]
    rw [hfn]
    simp [hr]

lemma count_fig6bTrace_setup (radii : List ℤ) (ps : List ℚ) (r : ℤ) :
    (fig6bTrace radii ps).count (Event.setup r) = radii.count r := by
  induction radii with
  | nil => simp [fig6bTrace]
  | cons r' rs ih =>
    rw [fig6bTrace, List.count_append, ih, count_fig6bRadiusTrace_setup, List.count_cons]
    by_cases hr : r' = r
    · subst hr
      simp
      try ring
    · simp [hr]
      try ring

lemma count_fig6bTrace_push (radii : List ℤ) (ps : List ℚ) (r : ℤ) :
    (fig6bTrace radii ps).count (Event.push r) = 0 := by
  induction radii with
  | nil => simp [fig6bTrace]
  | cons r' rs ih =>
    rw [fig6bTrace, List.count_append, ih, count_fig6bRadiusTrace_push]

lemma count_fig6bTrace_extractStabs (radii : List ℤ) (ps : List ℚ) (r : ℤ) :
    (fig6bTrace radii ps).count (Event.extractStabs r) = 0 := by
  induction radii with
  | nil => simp [fig6bTrace]
  | cons r' rs ih =>
    rw [fig6bTrace, List.count_append, ih, count_fig6bRadiusTrace_extractStabs]

lemma count_fig6bTrace_extractLogs (radii : List ℤ) (ps : List ℚ) (r : ℤ) :
    (fig6bTrace radii ps).count (Event.extractLogs r) = 0 := by
  induction radii with
  | nil => simp [fig6bTrace]
  | cons r' rs ih =>
    rw [fig6bTrace, List.count_append, ih, count_fig6bRadiusTrace_extractLogs]

lemma countP_fig6bTrace_decode (radii : List ℤ) (ps : List ℚ) (r : ℤ) :
    (fig6bTrace radii ps).countP (isDecodeOf r) = radii.count r * ps.length := by
  induction radii with
  | nil => simp [fig6bTrace]
  | cons r' rs ih =>
    rw [fig6bTrace, List.countP_append, ih, countP_fig6bRadiusTrace_decode, List.count_cons]
    by_cases hr : r' = r
    · subst hr
      simp
      try ring
    · simp [hr]
      try ring

/-- Round half to even (the rounding used by Python's fixed-point float
formatting), at integer precision. -/
def roundHalfEven (x : ℚ) : ℤ :=
  if x - ⌊x⌋ < 1/2 then ⌊x⌋
  else if 1/2 < x - ⌊x⌋ then ⌊x⌋ + 1
  else if ⌊x⌋ % 2 = 0 then ⌊x⌋ else ⌊x⌋ + 1

/-- Left-pad a digit string with zeros to width `d`. -/
def padZeros (d : ℕ) (digits : String) : String :=
  String.join (List.replicate (d - digits.length) "0") ++ digits

/-- Fixed-point formatting with `d` decimal digits: Python's `f"{x:.2f}"` /
`f"{x:.3f}"`, with the double modelled as the exact rational `x`. -/
def fmtFixed (d : ℕ) (x : ℚ) : String :=
  let n := roundHalfEven (x * (10 : ℚ) ^ d)
  let sign := if n < 0 then "-" else ""
  let m := n.natAbs
  sign ++ toString (m / 10 ^ d) ++ "." ++ padZeros d (toString (m % 10 ^ d))

/-- Line 40 of `max_rate_multi_logical_HaPPY_TN.py`:
`print(f"  p={p_depo:.2f} -> success rate {success_rate:.3f}")`. -/
def pointLine (p rate : ℚ) : String :=
  "  p=" ++ fmtFixed 2 p ++ " -> success rate " ++ fmtFixed 3 rate

/-- Line 26: the per-radius header line, with `nLogical` the (opaque) number
of logical qubits extracted for the radius. -/
def headerLine (nLogical : ℕ) (r : ℤ) : String :=
  "\nScanning max-rate HaPPY (R=" ++ toString r ++ ") with "
    ++ toString nLogical ++ " logical qubits:"

/-- Lines 20–40: the printed output of the radius loop, radii in order, one
header line per radius followed by one per-point line per grid point. -/
def scanLines (decoder : ℤ → ℚ → ℚ) (nLogical : ℤ → ℕ) (radii : List ℤ)
    (ps : List ℚ) : List String :=
  match radii with
  | [] => []
  | r :: rs =>
    (headerLine (nLogical r) r :: ps.map (fun p => pointLine p (decoder r p)))
      ++ scanLines decoder nLogical rs ps

/-- Lines 13–40 of `max_rate_multi_logical_HaPPY_TN.py`: `scan_success_rates`
computes the grid once, prints the per-radius curves, and returns `None`
(annotated `-> None`): the pair is (printed lines, returned value).  The
decoder and per-radius logical count are the opaque external collaborators. -/
def scan_success_rates (decoder : ℤ → ℚ → ℚ) (nLogical : ℤ → ℕ) (radii : List ℤ)
    (p_start p_end p_step : ℚ) : List String × Option (List (ℤ × List (ℚ × ℚ))) :=
  (scanLines decoder nLogical radii (pValues p_start p_end p_step), none)

lemma scanLines_mem (decoder : ℤ → ℚ → ℚ) (nLogical : ℤ → ℕ) (radii : List ℤ)
    (ps : List ℚ) (line : String) (hmem : line ∈ scanLines decoder nLogical radii ps) :
    (∃ r, line = headerLine (nLogical r) r) ∨
    (∃ r p, p ∈ ps ∧ line = pointLine p (decoder r p)) := by
  induction radii with
  | nil => simp [scanLines] at hmem
  | cons r rs ih =>
    rw [scanLines] at hmem
    rcases List.mem_append.mp hmem with h | h
    · rcases List.mem_cons.mp h with h | h
      · exact Or.inl ⟨r, h⟩
      · obtain ⟨p, hp, hline⟩ := List.mem_map.mp h
        exact Or.inr ⟨r, p, hp, hline.symm⟩
    · exact ih h

/-- C9: every line printed by `scan_success_rates` is either a per-radius
header or a per-point progress line of the form
`p=<value> -> success rate <value>` (indented by two spaces), pairing the grid
point with its computed success rate. -/
theorem scan_line_format (decoder : ℤ → ℚ → ℚ) (nLogical : ℤ → ℕ)
    (radii : List ℤ) (a b s : ℚ) (line : String)
    (hmem : line ∈ (scan_success_rates decoder nLogical radii a b s).1) :
    (∃ r, line = headerLine (nLogical r) r) ∨
    (∃ r p, p ∈ pValues a b s ∧
      line = "  " ++ "p=" ++ fmtFixed 2 p ++ " -> success rate "
        ++ fmtFixed 3 (decoder r p)) := by
  rcases scanLines_mem decoder nLogical radii (pValues a b s) line hmem with h | ⟨r, p, hp, h⟩
  · exact Or.inl h
  · exact Or.inr ⟨r, p, hp, h⟩

/-- Witness for C9 at the one-point grid `p_start = p_end = 0`, `p_step = 1`,
with the constant decoder returning rate 1. -/
theorem scan_line_format_witness :
    (pointLine 0 1 ∈
      (scan_success_rates (fun _ _ => (1 : ℚ)) (fun _ => 1) [0] 0 0 1).1) ∧
    ((∃ r : ℤ, pointLine 0 1 = headerLine 1 r) ∨
     (∃ r : ℤ, ∃ p, p ∈ pValues 0 0 1 ∧
       pointLine 0 1 = "  " ++ "p=" ++ fmtFixed 2 p ++ " -> success rate "
         ++ fmtFixed 3 1)) := by
  have hgrid : pValues 0 0 1 = [0] := by
    rw [pValues_concrete 0 0 1 1 (ceil_toNat_eq _ 1 (by norm_num) (by norm_num))]
    norm_num [List.range_succ]
  have hmem : pointLine 0 1 ∈
      (scan_success_rates (fun _ _ => (1 : ℚ)) (fun _ => 1) [0] 0 0 1).1 := by
    rw [scan_success_rates]
    simp only [hgrid, scanLines, List.map_cons, List.map_nil]
    simp
  exact ⟨hmem,
    scan_line_format (fun _ _ => (1 : ℚ)) (fun _ => 1) [0] 0 0 1 (pointLine 0 1) hmem⟩

/-- Model of `np.linspace(start, stop, num)`: `num` evenly spaced values with
both endpoints included. -/
def linspace (start stop : ℚ) (num : ℕ) : List ℚ :=
  (List.range num).map (fun i : ℕ => start + (i : ℚ) * (stop - start) / ((num : ℚ) - 1))

/-- Line 73 of `reproducing_figs.py`: `p_values = np.linspace(0.0, 0.5, 8)`. -/
def p_values_fig6b : List ℚ := linspace 0 (1/2) 8

/-- Lines 59–95 of `reproducing_figs.py`: `generate_data_fig6b` pairs each
linspace point with the decoder's rate and returns `data_storage`, the mapping
radius → ordered `(p, rate)` pairs (the insertion-ordered dict modelled as an
association list). -/
def generate_data_fig6b (decoder : ℤ → ℚ → ℚ) (radii : List ℤ) :
    List (ℤ × List (ℚ × ℚ)) :=
  radii.map (fun R => (R, p_values_fig6b.map (fun p => (p, decoder R p))))

/-- C4 (amended): in `scan_success_rates`, for every radius of a
duplicate-free radii list, code construction, operator pushing and the two
extractions each occur exactly once in the execution trace, all before the
noise-point loop (never repeated per noise point), and the decoder is invoked
exactly once per grid point; in `generate_data_fig6b`, code construction
occurs exactly once per radius before the loop and the decoder once per grid
point, but operator pushing and stabilizer/logical extraction are performed
zero times — the decoder is called directly on the raw tensor list. -/
theorem sweeps_once_per_radius (radii : List ℤ) (a b s : ℚ) (r : ℤ)
    (hmem : r ∈ radii) (hnd : radii.Nodup) :
    ((scanTrace radii (pValues a b s)).count (Event.setup r) = 1 ∧
     (scanTrace radii (pValues a b s)).count (Event.push r) = 1 ∧
     (scanTrace radii (pValues a b s)).count (Event.extractStabs r) = 1 ∧
     (scanTrace radii (pValues a b s)).count (Event.extractLogs r) = 1 ∧
     (scanTrace radii (pValues a b s)).countP (isDecodeOf r) = (pValues a b s).length ∧
     radiusTrace r (pValues a b s) =
       [Event.setup r, Event.push r, Event.extractStabs r, Event.extractLogs r]
         ++ (pValues a b s).map (fun p => Event.decode r p)) ∧
    ((fig6bTrace radii p_values_fig6b).count (Event.setup r) = 1 ∧
     (fig6bTrace radii p_values_fig6b).count (Event.push r) = 0 ∧
     (fig6bTrace radii p_values_fig6b).count (Event.extractStabs r) = 0 ∧
     (fig6bTrace radii p_values_fig6b).count (Event.extractLogs r) = 0 ∧
     (fig6bTrace radii p_values_fig6b).countP (isDecodeOf r) = p_values_fig6b.length ∧
     fig6bRadiusTrace r p_values_fig6b =
       Event.setup r :: p_values_fig6b.map (fun p => Event.decode r p)) := by
  have hcnt : radii.count r = 1 := List.count_eq_one_of_mem hnd hmem
  refine ⟨⟨?_, ?_, ?_, ?_, ?_, rfl⟩, ⟨?_, ?_, ?_, ?_, ?_, rfl⟩⟩
  · rw [count_scanTrace_setup, hcnt]
  · rw [count_scanTrace_push, hcnt]
  · rw [count_scanTrace_extractStabs, hcnt]
  · rw [count_scanTrace_extractLogs, hcnt]
  · rw [countP_scanTrace_decode, hcnt, one_mul]
  · rw [count_fig6bTrace_setup, hcnt]
  · exact count_fig6bTrace_push radii p_values_fig6b r
  · exact count_fig6bTrace_extractStabs radii p_values_fig6b r
  · exact count_fig6bTrace_extractLogs radii p_values_fig6b r
  · rw [countP_fig6bTrace_decode, hcnt, one_mul]

/-- Witness for the amended C4 at radii `[0, 1]`, `r = 0`, scan grid
`0, 1/20, …, 3/10`. -/
theorem sweeps_once_per_radius_witness :
    ((0 : ℤ) ∈ [(0 : ℤ), 1] ∧ ([(0 : ℤ), 1] : List ℤ).Nodup) ∧
    (((scanTrace [0, 1] (pValues 0 (3/10) (1/20))).count (Event.setup 0) = 1 ∧
      (scanTrace [0, 1] (pValues 0 (3/10) (1/20))).count (Event.push 0) = 1 ∧
      (scanTrace [0, 1] (pValues 0 (3/10) (1/20))).count (Event.extractStabs 0) = 1 ∧
      (scanTrace [0, 1] (pValues 0 (3/10) (1/20))).count (Event.extractLogs 0) = 1 ∧
      (scanTrace [0, 1] (pValues 0 (3/10) (1/20))).countP (isDecodeOf 0)
         = (pValues 0 (3/10) (1/20)).length ∧
      radiusTrace 0 (pValues 0 (3/10) (1/20)) =
        [Event.setup 0, Event.push 0, Event.extractStabs 0, Event.extractLogs 0]
          ++ (pValues 0 (3/10) (1/20)).map (fun p => Event.decode 0 p)) ∧
     ((fig6bTrace [0, 1] p_values_fig6b).count (Event.setup 0) = 1 ∧
      (fig6bTrace [0, 1] p_values_fig6b).count (Event.push 0) = 0 ∧
      (fig6bTrace [0, 1] p_values_fig6b).count (Event.extractStabs 0) = 0 ∧
      (fig6bTrace [0, 1] p_values_fig6b).count (Event.extractLogs 0) = 0 ∧
      (fig6bTrace [0, 1] p_values_fig6b).countP (isDecodeOf 0) = p_values_fig6b.length ∧
      fig6bRadiusTrace 0 p_values_fig6b =
        Event.setup 0 :: p_values_fig6b.map (fun p => Event.decode 0 p))) :=
  ⟨⟨by simp, by simp⟩,
   sweeps_once_per_radius [0, 1] 0 (3/10) (1/20) 0 (by simp) (by simp)⟩

/-- C4 counterexample: radius 0 is processed by the `generate_data_fig6b`
sweep, yet in that sweep's execution trace operator pushing and the
stabilizer/logical extractions occur zero times — not "exactly once" as the
claim states over its cited scope. -/
theorem fig6b_no_push_counterexample :
    (0 : ℤ) ∈ [(0 : ℤ)] ∧
    (fig6bTrace [0] p_values_fig6b).count (Event.push 0) = 0 ∧
    (fig6bTrace [0] p_values_fig6b).count (Event.extractStabs 0) = 0 ∧
    (fig6bTrace [0] p_values_fig6b).count (Event.extractLogs 0) = 0 :=
  ⟨by simp,
   count_fig6bTrace_push [0] p_values_fig6b 0,
   count_fig6bTrace_extractStabs [0] p_values_fig6b 0,
   count_fig6bTrace_extractLogs [0] p_values_fig6b 0⟩

/-- C8 (amended): `generate_data_fig6b` does expose the Sweep Result in a
plotting-library-agnostic form (each radius, in order, mapped to the ordered
list of `(noise value, rate)` pairs over the ascending grid), but
`scan_success_rates` returns `None` for every input — it only prints. -/
theorem fig6b_exposes_sweep_result (decoder : ℤ → ℚ → ℚ) (radii : List ℤ) :
    (generate_data_fig6b decoder radii).map Prod.fst = radii ∧
    (∀ e ∈ generate_data_fig6b decoder radii, e.2.map Prod.fst = p_values_fig6b) ∧
    List.Sorted (· ≤ ·) p_values_fig6b ∧
    ∀ nL a b s, (scan_success_rates decoder nL radii a b s).2 = none := by
  refine ⟨?_, ?_, ?_, fun _ _ _ _ => rfl⟩
  · rw [generate_data_fig6b, List.map_map]
    have h : (Prod.fst ∘ fun R : ℤ =>
        (R, p_values_fig6b.map (fun p => (p, decoder R p)))) = id := rfl
    rw [h, List.map_id]
  · intro e he
    obtain ⟨R, _, hR⟩ := List.mem_map.mp he
    rw [← hR, List.map_map]
    have h : (Prod.fst ∘ fun p : ℚ => (p, decoder R p)) = id := rfl
    rw [h, List.map_id]
  · rw [p_values_fig6b, linspace]
    apply List.Pairwise.map
    · intro i j hij
      have hc : (i : ℚ) ≤ (j : ℚ) := by exact_mod_cast le_of_lt hij
      push_cast
      norm_num
      linarith
    · exact List.pairwise_lt_range 8

/-- Witness for the amended C8 with the constant decoder and radii `[0, 1]`. -/
theorem fig6b_exposes_sweep_result_witness :
    (generate_data_fig6b (fun _ _ => (1 : ℚ)) [0, 1]).map Prod.fst = [0, 1] ∧
    (∀ e ∈ generate_data_fig6b (fun _ _ => (1 : ℚ)) [0, 1],
      e.2.map Prod.fst = p_values_fig6b) ∧
    List.Sorted (· ≤ ·) p_values_fig6b ∧
    ∀ nL a b s, (scan_success_rates (fun _ _ => (1 : ℚ)) nL [0, 1] a b s).2 = none :=
  fig6b_exposes_sweep_result (fun _ _ => 1) [0, 1]

/-- C8 counterexample: the user-facing sweep entry point `scan_success_rates`
(annotated `-> None`) exposes no Sweep Result value to its caller: at a
concrete input its returned value is `none` — the results are only printed. -/
theorem scan_returns_none_counterexample :
    (scan_success_rates (fun _ _ => (1 : ℚ)) (fun _ => 1) [0] 0 (3/10) (1/20)).2
      = none := rfl

/-- Error kind from the spec's error taxonomy (§7) for a degenerate code:
extraction yields zero logical operators. -/
inductive DecoderError : Type
  | degenerateCode
  deriving DecidableEq

/-- Modelled from the spec: the decoder backends
(`tn_quantum_error_correction_decoder_multiprocess` and
`calculate_recovery_rates_for_p_range`) live in the external `LEGO_HQEC`
package and are missing from the repository sources.  Per §4.3 both satisfy
the abstract contract `run_batch(context, noise_params, N, n_process) -> rate`
and treat an empty/zero logical-operator set as a degenerate contract
violation, failing with `DegenerateCodeKind`; the opaque Monte-Carlo rate
computation on a non-empty logical set is the parameter `rate`. -/
def run_batch (rate : List (List ℤ) → ℚ) (logicals : List (List ℤ)) :
    Except DecoderError ℚ :=
  if logicals.isEmpty then Except.error DecoderError.degenerateCode
  else Except.ok (rate logicals)

/-- C6: feeding an empty logical-operator set into a decoder backend fails
with the degenerate-code error — it neither returns a rate nor fails with a
different error — for every underlying rate computation. -/
theorem run_batch_empty_degenerate (rate : List (List ℤ) → ℚ) :
    run_batch rate [] = Except.error DecoderError.degenerateCode := rfl

/-- Error raised by `np.loadtxt` on a missing reference file, keyed by the
radius in the fixed filename pattern. -/
inductive RefError : Type
  | missingFile (r : ℤ)
  deriving DecidableEq

/-- Model of `np.loadtxt(filename)` at line 127 of `reproducing_figs.py`: the
file system maps the radius keying the filename pattern
`hqec_tesseract_logical_error_rates_lin_R=....txt` to its contents; a missing
file raises. -/
def loadtxt (fs : ℤ → Option (List ℚ)) (r : ℤ) : Except RefError (List ℚ) :=
  match fs r with
  | some d => Except.ok d
  | none => Except.error (RefError.missingFile r)

/-- Lines 120–129 of `reproducing_figs.py`: the plotting loop over the
`pauli_data` radii performs an unguarded `loadtxt` for each radius (no
try/except), so the first missing file propagates out and aborts the rest of
the loop. -/
def plotTesseractRefs (fs : ℤ → Option (List ℚ)) (radii : List ℤ) :
    Except RefError (List (ℤ × List ℚ)) :=
  match radii with
  | [] => Except.ok []
  | r :: rs =>
    match loadtxt fs r with
    | Except.error e => Except.error e
    | Except.ok d =>
      match plotTesseractRefs fs rs with
      | Except.error e => Except.error e
      | Except.ok rest => Except.ok ((r, d) :: rest)

/-- C7 (amended): whenever any radius in the plotting loop has its reference
file absent, the whole plotting run aborts with the unhandled load error for
some missing radius — no radius is reported-and-skipped.  (The core sweeps run
before `plot_results` and contain no reference-file loading, so they are
unaffected.) -/
theorem plot_aborts_on_missing (fs : ℤ → Option (List ℚ)) (radii : List ℤ)
    (r : ℤ) (hmem : r ∈ radii) (hnone : fs r = none) :
    ∃ r', fs r' = none ∧
      plotTesseractRefs fs radii = Except.error (RefError.missingFile r') := by
  induction radii with
  | nil => cases hmem
  | cons r0 rs ih =>
    cases hfs : fs r0 with
    | none =>
      exact ⟨r0, hfs, by simp [plotTesseractRefs, loadtxt, hfs]⟩
    | some d =>
      have hr : r ∈ rs := by
        rcases List.mem_cons.mp hmem with h | h
        · rw [← h, hnone] at hfs
          cases hfs
        · exact h
      obtain ⟨r', hr', heq⟩ := ih hr
      exact ⟨r', hr', by simp [plotTesseractRefs, loadtxt, hfs, heq]⟩

/-- Witness for the amended C7: every file missing, radii `[0]`. -/
theorem plot_aborts_on_missing_witness :
    ((0 : ℤ) ∈ [(0 : ℤ)] ∧ (fun _ : ℤ => (none : Option (List ℚ))) 0 = none) ∧
    (∃ r', (fun _ : ℤ => (none : Option (List ℚ))) r' = none ∧
      plotTesseractRefs (fun _ => none) [0]
        = Except.error (RefError.missingFile r')) :=
  ⟨⟨by simp, rfl⟩, plot_aborts_on_missing (fun _ => none) [0] 0 (by simp) rfl⟩

/-- C7 counterexample: with the reference file for radius 1 present but the
one for radius 0 absent, the plotting step over radii `[0, 1]` aborts with the
load error for radius 0 instead of reporting and skipping radius 0 and
continuing with radius 1. -/
theorem plot_missing_counterexample :
    plotTesseractRefs (fun r => if r = 1 then some [0] else none) [0, 1]
      = Except.error (RefError.missingFile 0) := by
  simp [plotTesseractRefs, loadtxt]

end HQEC
